import Mathlib

/-!
# Colour quantization kernel of `task1.cpp`

A shallow embedding of `src/task1/task1.cpp`: the palette `h_quantizedColors`,
the OpenCL kernel `quantizeColorGPU`, its dispatch over the two-dimensional
grid, and the control flow of `main`.

Conventions of the embedding:

* `uchar` is `Fin 256`;
* an `int` is an `Int` kept in the 32-bit range by `wrap32` after every
  arithmetic operation (two's complement);
* a buffer is a `List`; an access outside the buffer has no defined result
  and is `none`.
-/

namespace TPRV

/-! ## Machine integers -/

/-- An 8-bit unsigned channel sample (`uchar`). -/
abbrev uchar := Fin 256

/-- Largest value of a 32-bit `int`. -/
def INT_MAX : Int := 2147483647

/-- Two's complement reduction of an exact integer to a 32-bit `int`. -/
def wrap32 (n : Int) : Int := (n + 2147483648) % 4294967296 - 2147483648

/-- The `int` addition `a + b`. -/
def iadd (a b : Int) : Int := wrap32 (a + b)

/-- The `int` subtraction `a - b`. -/
def isub (a b : Int) : Int := wrap32 (a - b)

/-- The `int` multiplication `a * b`. -/
def imul (a b : Int) : Int := wrap32 (a * b)

/-- The `int` division `a / b`, truncating toward zero. -/
def idiv (a b : Int) : Int := wrap32 (Int.tdiv a b)

/-! ## Palette (lines 8-19) -/

/-- The vector type `cl_uchar3` / `uchar3`. -/
structure uchar3 where
  x : uchar
  y : uchar
  z : uchar
deriving DecidableEq, Repr

/-- The global palette `h_quantizedColors[10]`. -/
def h_quantizedColors : List uchar3 :=
  [ ⟨0, 0, 0⟩, ⟨127, 0, 0⟩, ⟨255, 0, 0⟩, ⟨0, 127, 0⟩, ⟨0, 255, 0⟩,
    ⟨0, 0, 127⟩, ⟨0, 0, 255⟩, ⟨127, 0, 127⟩, ⟨127, 127, 0⟩, ⟨0, 127, 127⟩ ]

/-- The device palette buffer created on line 97: the first `K` entries of
`h_quantizedColors` (`sizeof(cl_uchar3) * K` bytes copied from the host). -/
def d_quantizedColors (K : Int) : List uchar3 := h_quantizedColors.take K.toNat

/-! ## Buffers -/

/-- Read `buf[i]` with an `int` index. -/
def load {α : Type} (buf : List α) (i : Int) : Option α :=
  if i < 0 then none else buf[i.toNat]?

/-- Write `buf[i] = v` with an `int` index. -/
def store {α : Type} (buf : List α) (i : Int) (v : α) : Option (List α) :=
  if i < 0 then none
  else if i.toNat < buf.length then some (buf.set i.toNat v)
  else none

/-! ## The kernel (lines 23-38) -/

/-- Line 29: `(c2 + c1 + c0) / 3` on channel samples promoted to `int`. -/
def intensityOf (c2 c1 c0 : Int) : Int := idiv (iadd (iadd c2 c1) c0) 3

/-- Line 30: `(intensity * (K - 1)) / 255`. -/
def quantIndexOf (intensity K : Int) : Int := idiv (imul intensity (isub K 1)) 255

/-- One work item of the kernel `quantizeColorGPU`, with global id
`(gid0, gid1)`; returns the output buffer after the work item. -/
def quantizeColorGPU (input output : List uchar) (rows cols : Int)
    (quantizedColors : List uchar3) (K : Int) (gid0 gid1 : Nat) : Option (List uchar) :=
  let i := wrap32 gid1
  let j := wrap32 gid0
  if i < rows ∧ j < cols then do
    let idx := iadd (imul i cols) j
    let c2 ← load input (iadd (imul 3 idx) 2)
    let c1 ← load input (iadd (imul 3 idx) 1)
    let c0 ← load input (imul 3 idx)
    let intensity := intensityOf c2.val c1.val c0.val
    let quantIndex := quantIndexOf intensity K
    let quantColor ← load quantizedColors quantIndex
    let o0 ← store output (imul 3 idx) quantColor.x
    let o1 ← store o0 (iadd (imul 3 idx) 1) quantColor.y
    store o1 (iadd (imul 3 idx) 2) quantColor.z
  else
    some output

/-- The global ids of a two-dimensional grid of `gws0 × gws1` work items. -/
def globalIds (gws0 gws1 : Nat) : List (Nat × Nat) :=
  (List.range gws1).flatMap fun g1 => (List.range gws0).map fun g0 => (g0, g1)

/-- Lines 117-120: `clEnqueueNDRangeKernel` with `globalWorkSize = {gws0, gws1}`
followed by `clFinish`: every work item of the grid runs once. The work items
are run one after the other, row by row; they read `input` only and write
disjoint bytes of the output, and `foldlM_any_order` shows that every other
order of the same work items gives the same buffer. -/
def clEnqueueNDRangeKernel (input output : List uchar) (rows cols : Int)
    (quantizedColors : List uchar3) (K : Int) (gws0 gws1 : Nat) : Option (List uchar) :=
  (globalIds gws0 gws1).foldlM
    (fun out g => quantizeColorGPU input out rows cols quantizedColors K g.1 g.2) output

/-! ## The data path of `quantizeAndSave` (lines 48-148) -/

/-- A `cv::Mat` of type `CV_8UC3` with continuous data: `rows`, `cols` and the
bytes of the pixels, three per pixel, row by row. -/
structure Mat where
  rows : Int
  cols : Int
  data : List uchar
deriving DecidableEq, Repr

/-- The conversion `static_cast<size_t>(n)` of an `int` on line 117
(64-bit `size_t`). -/
def size_t (n : Int) : Nat := (n % 18446744073709551616).toNat

/-- Line 51: `int image_size = rows * cols * 3`. -/
def image_size (input : Mat) : Int := imul (imul input.rows input.cols) 3

/-- What `quantizeAndSave` computes when every OpenCL call reports `CL_SUCCESS`:
the `Mat` built on line 133 and handed to `cv::imwrite`. Lines 51-54 allocate
`image_size` bytes (a negative size throws), lines 70-71 create the device
buffers of `image_size` bytes, the input one copied from `input.data`, the
output one with the arbitrary bytes `uninit`, lines 97-120 upload the first `K`
palette entries and run the kernel over the grid `{cols, rows}`, lines 130-133
read the output buffer back into a `Mat` of `rows` by `cols` pixels. The result
is `none` when line 54 throws or the kernel has no defined result. -/
def quantizeAndSave (input : Mat) (K : Int) (uninit : Nat → uchar) : Option Mat :=
  if image_size input < 0 then none
  else
    (clEnqueueNDRangeKernel (input.data.take (image_size input).toNat)
        ((List.range (image_size input).toNat).map uninit) input.rows input.cols
        (d_quantizedColors K) K (size_t input.cols) (size_t input.rows)).map
      fun result => ⟨input.rows, input.cols, result⟩

/-! ## Closed form of the kernel's result -/

/-- Component `k` of a colour in buffer order: `x`, `y`, `z` at offsets 0, 1, 2. -/
def uchar3.comp (c : uchar3) (k : Nat) : uchar :=
  if k = 0 then c.x else if k = 1 then c.y else c.z

/-- The palette entry that lines 29-32 select for a pixel whose bytes at offsets
0, 1, 2 are `c0`, `c1`, `c2`. -/
def quantizePixel (K : Int) (c0 c1 c2 : uchar) : uchar3 :=
  h_quantizedColors.getD (quantIndexOf (intensityOf c2.val c1.val c0.val) K).toNat ⟨0, 0, 0⟩

/-- The palette entry selected for pixel `idx` of `input`. -/
def pixelColor (input : List uchar) (K : Int) (idx : Nat) : uchar3 :=
  quantizePixel K (input.getD (3 * idx) 0) (input.getD (3 * idx + 1) 0)
    (input.getD (3 * idx + 2) 0)

/-- The three stores of lines 34-36 at exact offsets `3 * idx`, `3 * idx + 1`,
`3 * idx + 2`. -/
def setPixel (output : List uchar) (idx : Nat) (c : uchar3) : List uchar :=
  ((output.set (3 * idx) c.x).set (3 * idx + 1) c.y).set (3 * idx + 2) c.z

/-- The buffer of `n` bytes whose pixel `idx` is `pixelColor input K idx`. -/
def quantizedBuffer (input : List uchar) (K : Int) (n : Nat) : List uchar :=
  (List.range n).map fun p => (pixelColor input K (p / 3)).comp (p % 3)

/-! ## `main` (lines 150-188) -/

/-- What an execution of `main` does outside the process: it loads an image
file, or it calls `quantizeAndSave` (in iteration `run`, on `image1`, `image2`
or `image3`, with an output path and `K`). -/
inductive Event where
  | imread (filename : String)
  | quantizeAndSave (run : Nat) (image : Nat) (outputFilename : String) (K : Int)
deriving DecidableEq, Repr

/-- What the environment decides in an execution of `main`. -/
structure World where
  /-- Whether `cv::imread` of a path returns an empty `Mat`. -/
  empty : String → Bool
  /-- Whether the `n`-th call of `quantizeAndSave`, counted from 0, throws
  (`checkOpenCLError` on a failed OpenCL call, or a failed allocation). -/
  throws : Nat → Bool

/-- Whether an event is a call of `quantizeAndSave`. -/
def Event.isCall : Event → Bool
  | Event.quantizeAndSave _ _ _ _ => true
  | Event.imread _ => false

/-- Number of calls of `quantizeAndSave` in a trace. -/
def callCount (tr : List Event) : Nat := (tr.filter Event.isCall).length

/-- The path expressions of lines 177-179, for `image1`, `image2`, `image3`. -/
def outputFilename (image : Nat) (K : Int) : String :=
  match image with
  | 1 => "result/quantized_f1024x768_k" ++ toString K ++ ".jpg"
  | 2 => "result/quantized_f1280x960_k" ++ toString K ++ ".jpg"
  | _ => "result/quantized_f2560x1440_k" ++ toString K ++ ".jpg"

/-- One call `quantizeAndSave(image, path, K)` inside the `try` block: the new
trace, and `true` when the call returns normally. -/
def call (w : World) (run image : Nat) (K : Int) (tr : List Event) : List Event × Bool :=
  (tr ++ [Event.quantizeAndSave run image (outputFilename image K) K],
    !w.throws (callCount tr))

/-- The three calls of iteration `run`, in order. -/
def runEvents (K : Int) (run : Nat) : List Event :=
  [Event.quantizeAndSave run 1 (outputFilename 1 K) K,
    Event.quantizeAndSave run 2 (outputFilename 2 K) K,
    Event.quantizeAndSave run 3 (outputFilename 3 K) K]

/-- Lines 176-179: the body of the loop; an exception leaves the body at once. -/
def loopBody (w : World) (K : Int) (run : Nat) (tr : List Event) : List Event × Bool :=
  let r1 := call w run 1 K tr
  if r1.2 then
    let r2 := call w run 2 K r1.1
    if r2.2 then call w run 3 K r2.1 else r2
  else r1

/-- Lines 174-180: the loop over the values of `run`; an exception leaves the
loop at once. -/
def forLoop (w : World) (K : Int) : List Nat → List Event → List Event × Bool
  | [], tr => (tr, true)
  | run :: rest, tr =>
    let r := loopBody w K run tr
    if r.2 then forLoop w K rest r.1 else r

/-- Lines 161-163: the three image loads, in order. -/
def inputReads : List Event :=
  [Event.imread "data/f1024x768.jpg", Event.imread "data/f1280x960.jpg",
    Event.imread "data/f2560x1440.jpg"]

/-- The output paths passed to `quantizeAndSave` in a trace, in order. -/
def callPaths : List Event → List String
  | [] => []
  | Event.quantizeAndSave _ _ p _ :: tr => p :: callPaths tr
  | Event.imread _ :: tr => callPaths tr

/-- The function `main` with its constants `K` and `numRuns` as parameters:
the exit status and the trace. -/
def mainWith (K : Int) (numRuns : Nat) (w : World) : Int × List Event :=
  if K < 4 ∨ K > 10 then (1, [])
  else
    let tr := inputReads
    if w.empty "data/f1024x768.jpg" || w.empty "data/f1280x960.jpg"
        || w.empty "data/f2560x1440.jpg" then (1, tr)
    else
      let r := forLoop w K (List.range numRuns) tr
      if r.2 then (0, r.1) else (1, r.1)

/-- The function `main`: `K = 10` (line 153), `numRuns = 10` (line 170). -/
def main (w : World) : Int × List Event := mainWith 10 10 w

/-- An environment in which every image loads and no call throws. -/
def World.allGood : World := ⟨fun _ => false, fun _ => false⟩

/-! ## Arithmetic of one pixel -/

theorem wrap32_of_fits (n : Int) (h0 : -2147483648 ≤ n) (h1 : n ≤ 2147483647) :
    wrap32 n = n := by
  unfold wrap32; omega

theorem intensityOf_exact (c2 c1 c0 : Int) (h2 : 0 ≤ c2 ∧ c2 ≤ 255)
    (h1 : 0 ≤ c1 ∧ c1 ≤ 255) (h0 : 0 ≤ c0 ∧ c0 ≤ 255) :
    intensityOf c2 c1 c0 = (c2 + c1 + c0) / 3 := by
  unfold intensityOf idiv iadd
  rw [wrap32_of_fits (c2 + c1) (by omega) (by omega),
    wrap32_of_fits (c2 + c1 + c0) (by omega) (by omega),
    Int.tdiv_eq_ediv (by omega) (by omega), wrap32_of_fits _ (by omega) (by omega)]

theorem quantIndexOf_exact (t K : Int) (ht : 0 ≤ t ∧ t ≤ 255) (hK : 4 ≤ K ∧ K ≤ 10) :
    quantIndexOf t K = t * (K - 1) / 255 := by
  have hmul : 0 ≤ t * (K - 1) ∧ t * (K - 1) ≤ 2295 := by
    constructor
    · exact Int.mul_nonneg ht.1 (by omega)
    · calc t * (K - 1) ≤ 255 * 9 :=
            Int.mul_le_mul ht.2 (by omega) (by omega) (by omega)
        _ = 2295 := by norm_num
  unfold quantIndexOf idiv imul isub
  rw [wrap32_of_fits (K - 1) (by omega) (by omega),
    wrap32_of_fits (t * (K - 1)) (by omega) (by omega),
    Int.tdiv_eq_ediv hmul.1 (by omega), wrap32_of_fits _ (by omega) (by omega)]

theorem quantIndexOf_range (t K : Int) (ht : 0 ≤ t ∧ t ≤ 255) (hK : 4 ≤ K ∧ K ≤ 10) :
    0 ≤ quantIndexOf t K ∧ quantIndexOf t K ≤ K - 1 ∧
      (quantIndexOf t K = K - 1 ↔ t = 255) := by
  rw [quantIndexOf_exact t K ht hK]
  obtain ⟨h4, h10⟩ := hK
  interval_cases K <;> omega

theorem intensityOf_range (c2 c1 c0 : Int) (h2 : 0 ≤ c2 ∧ c2 ≤ 255)
    (h1 : 0 ≤ c1 ∧ c1 ≤ 255) (h0 : 0 ≤ c0 ∧ c0 ≤ 255) :
    0 ≤ intensityOf c2 c1 c0 ∧ intensityOf c2 c1 c0 ≤ 255 ∧
      (intensityOf c2 c1 c0 = 255 ↔ c2 = 255 ∧ c1 = 255 ∧ c0 = 255) := by
  rw [intensityOf_exact c2 c1 c0 h2 h1 h0]
  omega

theorem load_d_quantizedColors (q K : Int) (hK : 4 ≤ K ∧ K ≤ 10) (hq : 0 ≤ q ∧ q ≤ K - 1) :
    ∃ c, load (d_quantizedColors K) q = some c ∧ h_quantizedColors[q.toNat]? = some c := by
  obtain ⟨h4, h10⟩ := hK
  obtain ⟨q0, qK⟩ := hq
  interval_cases K <;> interval_cases q <;> exact ⟨_, rfl, rfl⟩

/-! ## One work item -/

theorem uchar3.comp_zero (c : uchar3) : c.comp 0 = c.x := rfl

theorem uchar3.comp_one (c : uchar3) : c.comp 1 = c.y := rfl

theorem uchar3.comp_two (c : uchar3) : c.comp 2 = c.z := rfl

theorem some_bind_eq {α β : Type} (a : α) (f : α → Option β) : (some a >>= f) = f a := rfl

theorem load_natCast {α : Type} (buf : List α) (n : Nat) : load buf (n : Int) = buf[n]? := by
  simp [load]

theorem store_natCast {α : Type} (buf : List α) (n : Nat) (v : α) (h : n < buf.length) :
    store buf (n : Int) v = some (buf.set n v) := by
  simp [store, h]

theorem getElem?_eq_some_getD {α : Type} (l : List α) (n : Nat) (d : α) (h : n < l.length) :
    l[n]? = some (l.getD n d) := by
  simp [List.getElem?_eq_getElem h]

theorem index_lt (rows cols g0 g1 : Nat) (h0 : g0 < cols) (h1 : g1 < rows) :
    g1 * cols + g0 < rows * cols := by
  have h : (g1 + 1) * cols ≤ rows * cols := Nat.mul_le_mul_right cols h1
  rw [Nat.add_mul, Nat.one_mul] at h
  omega

theorem load_palette (input : List uchar) (K : Int) (idx : Nat) (hK : 4 ≤ K ∧ K ≤ 10) :
    load (d_quantizedColors K)
      (quantIndexOf (intensityOf (input.getD (3 * idx + 2) 0).val
        (input.getD (3 * idx + 1) 0).val (input.getD (3 * idx) 0).val) K)
      = some (pixelColor input K idx) := by
  have b2 := (input.getD (3 * idx + 2) 0).isLt
  have b1 := (input.getD (3 * idx + 1) 0).isLt
  have b0 := (input.getD (3 * idx) 0).isLt
  have ht := intensityOf_range (input.getD (3 * idx + 2) 0).val
    (input.getD (3 * idx + 1) 0).val (input.getD (3 * idx) 0).val
    (by omega) (by omega) (by omega)
  have hq := quantIndexOf_range _ K ⟨ht.1, ht.2.1⟩ hK
  obtain ⟨c, hc, hc2⟩ := load_d_quantizedColors _ K hK ⟨hq.1, hq.2.1⟩
  rw [hc, pixelColor, quantizePixel, List.getD_eq_getElem?_getD, hc2]
  rfl

theorem wrap32_natCast (a : Nat) (h : a ≤ 2147483647) : wrap32 (a : Int) = (a : Int) :=
  wrap32_of_fits _ (by omega) (by omega)

theorem imul_natCast (a b : Nat) (h : a * b ≤ 2147483647) :
    imul (a : Int) (b : Int) = ((a * b : Nat) : Int) := by
  unfold imul
  rw [← Int.ofNat_mul]
  exact wrap32_natCast _ h

theorem iadd_natCast (a b : Nat) (h : a + b ≤ 2147483647) :
    iadd (a : Int) (b : Int) = ((a + b : Nat) : Int) := by
  unfold iadd
  rw [← Int.ofNat_add]
  exact wrap32_natCast _ h

theorem index_bounds (rows cols g0 g1 : Nat) (hsize : 3 * rows * cols ≤ 2147483647)
    (h0 : g0 < cols) (h1 : g1 < rows) :
    g1 ≤ 2147483647 ∧ g0 ≤ 2147483647 ∧ g1 * cols ≤ 2147483647 ∧
      g1 * cols + g0 ≤ 2147483647 ∧ 3 * (g1 * cols + g0) ≤ 2147483647 ∧
      3 * (g1 * cols + g0) + 1 ≤ 2147483647 ∧ 3 * (g1 * cols + g0) + 2 ≤ 2147483647 ∧
      3 * (g1 * cols + g0) + 2 < 3 * rows * cols := by
  have hlt := index_lt rows cols g0 g1 h0 h1
  rw [Nat.mul_assoc] at hsize ⊢
  have hrc : rows ≤ rows * cols := Nat.le_mul_of_pos_right rows (by omega)
  have hcr : cols ≤ rows * cols := Nat.le_mul_of_pos_left cols (by omega)
  refine ⟨?_, ?_, ?_, ?_, ?_, ?_, ?_, ?_⟩ <;> omega

theorem quantizeColorGPU_inGrid (input output : List uchar) (rows cols : Nat) (K : Int)
    (g0 g1 : Nat) (hsize : 3 * rows * cols ≤ 2147483647)
    (hin : input.length = 3 * rows * cols) (hout : output.length = 3 * rows * cols)
    (hK : 4 ≤ K ∧ K ≤ 10) (h0 : g0 < cols) (h1 : g1 < rows) :
    quantizeColorGPU input output rows cols (d_quantizedColors K) K g0 g1 =
      some (setPixel output (g1 * cols + g0) (pixelColor input K (g1 * cols + g0))) := by
  obtain ⟨b1, b0, bm, bx, b3, b31, b32, blt⟩ := index_bounds rows cols g0 g1 hsize h0 h1
  have hcond : (g1 : Int) < (rows : Int) ∧ (g0 : Int) < (cols : Int) :=
    ⟨Int.ofNat_lt.mpr h1, Int.ofNat_lt.mpr h0⟩
  have e3 : imul 3 ((g1 * cols + g0 : Nat) : Int) = ((3 * (g1 * cols + g0) : Nat) : Int) :=
    imul_natCast 3 _ b3
  have e31 : iadd ((3 * (g1 * cols + g0) : Nat) : Int) 1
      = ((3 * (g1 * cols + g0) + 1 : Nat) : Int) := iadd_natCast _ 1 b31
  have e32 : iadd ((3 * (g1 * cols + g0) : Nat) : Int) 2
      = ((3 * (g1 * cols + g0) + 2 : Nat) : Int) := iadd_natCast _ 2 b32
  have l2 : 3 * (g1 * cols + g0) + 2 < input.length := hin ▸ blt
  have l1 : 3 * (g1 * cols + g0) + 1 < input.length := Nat.lt_of_succ_lt l2
  have l0 : 3 * (g1 * cols + g0) < input.length := Nat.lt_of_succ_lt l1
  have o2 : 3 * (g1 * cols + g0) + 2 < output.length := hout ▸ blt
  have o1 : 3 * (g1 * cols + g0) + 1 < output.length := Nat.lt_of_succ_lt o2
  have o0 : 3 * (g1 * cols + g0) < output.length := Nat.lt_of_succ_lt o1
  unfold quantizeColorGPU setPixel
  simp only [wrap32_natCast g1 b1, wrap32_natCast g0 b0, hcond, and_self, if_true,
    imul_natCast g1 cols bm, iadd_natCast (g1 * cols) g0 bx, e3, e31, e32, load_natCast]
  rw [getElem?_eq_some_getD input _ 0 l2, getElem?_eq_some_getD input _ 0 l1,
    getElem?_eq_some_getD input _ 0 l0]
  rw [some_bind_eq, some_bind_eq, some_bind_eq,
    load_palette input K _ hK, some_bind_eq, store_natCast _ _ _ o0, some_bind_eq,
    store_natCast _ _ _ (by rw [List.length_set]; exact o1), some_bind_eq,
    store_natCast _ _ _ (by rw [List.length_set, List.length_set]; exact o2)]

/-! ## The grid

`foldlM_inGrid` is the invariant of a run over any list of work items of the
grid: the bytes of the pixels already visited hold their palette entry, all
other bytes are untouched. -/

theorem getElem?_set3_at (output : List uchar) (c : uchar3) (idx p : Nat)
    (hp : p < output.length) (h : p / 3 = idx) :
    (setPixel output idx c)[p]?
      = some (c.comp (p % 3)) := by
  unfold setPixel
  have h3 : p = 3 * idx ∨ p = 3 * idx + 1 ∨ p = 3 * idx + 2 := by omega
  rcases h3 with rfl | rfl | rfl
  · rw [List.getElem?_set_ne (by omega), List.getElem?_set_ne (by omega),
      List.getElem?_set_self hp]
    have : 3 * idx % 3 = 0 := by omega
    simp [uchar3.comp, this]
  · rw [List.getElem?_set_ne (by omega),
      List.getElem?_set_self (by rw [List.length_set]; exact hp)]
    have : (3 * idx + 1) % 3 = 1 := by omega
    simp [uchar3.comp, this]
  · rw [List.getElem?_set_self (by rw [List.length_set, List.length_set]; exact hp)]
    have : (3 * idx + 2) % 3 = 2 := by omega
    simp [uchar3.comp, this]

theorem getElem?_set3_other (output : List uchar) (c : uchar3) (idx p : Nat)
    (h : p / 3 ≠ idx) :
    (setPixel output idx c)[p]?
      = output[p]? := by
  unfold setPixel
  rw [List.getElem?_set_ne (by omega), List.getElem?_set_ne (by omega),
    List.getElem?_set_ne (by omega)]

theorem length_setPixel (output : List uchar) (idx : Nat) (c : uchar3) :
    (setPixel output idx c).length = output.length := by
  simp [setPixel]

theorem foldlM_inGrid (input : List uchar) (rows cols : Nat) (K : Int)
    (hsize : 3 * rows * cols ≤ 2147483647) (hin : input.length = 3 * rows * cols)
    (hK : 4 ≤ K ∧ K ≤ 10) :
    ∀ l : List (Nat × Nat), (∀ g ∈ l, g.1 < cols ∧ g.2 < rows) →
      ∀ output : List uchar, output.length = 3 * rows * cols →
        ∃ out, l.foldlM (fun out g =>
              quantizeColorGPU input out rows cols (d_quantizedColors K) K g.1 g.2) output
            = some out ∧
          out.length = 3 * rows * cols ∧
          (∀ p, p < 3 * rows * cols → (∃ g ∈ l, g.2 * cols + g.1 = p / 3) →
            out[p]? = some ((pixelColor input K (p / 3)).comp (p % 3))) ∧
          (∀ p, (¬ ∃ g ∈ l, g.2 * cols + g.1 = p / 3) → out[p]? = output[p]?) := by
  intro l
  induction l with
  | nil =>
    intro _ output hout
    exact ⟨output, rfl, hout, fun p _ h => by simp at h, fun p _ => rfl⟩
  | cons g l ih =>
    intro hl output hout
    have hg := hl g (List.mem_cons_self g l)
    rw [List.foldlM_cons,
      quantizeColorGPU_inGrid input output rows cols K g.1 g.2 hsize hin hout hK hg.1 hg.2,
      some_bind_eq]
    obtain ⟨out, hrun, hlen, hcov, hrest⟩ :=
      ih (fun g' hg' => hl g' (List.mem_cons_of_mem g hg')) _
        ((length_setPixel output _ _).trans hout)
    refine ⟨out, hrun, hlen, ?_, ?_⟩
    · intro p hp hex
      by_cases hin' : ∃ g' ∈ l, g'.2 * cols + g'.1 = p / 3
      · exact hcov p hp hin'
      · rw [hrest p hin']
        obtain ⟨g', hg', he⟩ := hex
        rcases List.mem_cons.mp hg' with rfl | hmem
        · rw [← he]
          exact getElem?_set3_at output _ _ p (hout ▸ hp) he.symm
        · exact absurd ⟨g', hmem, he⟩ hin'
    · intro p hno
      have h1 : ¬ ∃ g' ∈ l, g'.2 * cols + g'.1 = p / 3 := fun ⟨g', hg', he⟩ =>
        hno ⟨g', List.mem_cons_of_mem g hg', he⟩
      have h2 : p / 3 ≠ g.2 * cols + g.1 := fun he =>
        hno ⟨g, List.mem_cons_self g l, he.symm⟩
      rw [hrest p h1]
      exact getElem?_set3_other output _ _ p h2

theorem mem_globalIds (gws0 gws1 : Nat) (g : Nat × Nat) :
    g ∈ globalIds gws0 gws1 ↔ g.1 < gws0 ∧ g.2 < gws1 := by
  obtain ⟨a, b⟩ := g
  simp only [globalIds, List.mem_flatMap, List.mem_map, List.mem_range, Prod.mk.injEq]
  constructor
  · rintro ⟨g1, h1, g0, h0, rfl, rfl⟩
    exact ⟨h0, h1⟩
  · rintro ⟨h0, h1⟩
    exact ⟨b, h1, a, h0, rfl, rfl⟩

theorem getElem?_quantizedBuffer (input : List uchar) (K : Int) (n p : Nat) (hp : p < n) :
    (quantizedBuffer input K n)[p]? = some ((pixelColor input K (p / 3)).comp (p % 3)) := by
  simp [quantizedBuffer, List.getElem?_map, List.getElem?_range hp]

theorem length_quantizedBuffer (input : List uchar) (K : Int) (n : Nat) :
    (quantizedBuffer input K n).length = n := by
  simp [quantizedBuffer]

theorem foldlM_any_order (input output : List uchar) (rows cols : Nat) (K : Int)
    (hsize : 3 * rows * cols ≤ 2147483647) (hin : input.length = 3 * rows * cols)
    (hout : output.length = 3 * rows * cols) (hK : 4 ≤ K ∧ K ≤ 10)
    (l : List (Nat × Nat)) (hl : ∀ g, g ∈ l ↔ g.1 < cols ∧ g.2 < rows) :
    l.foldlM (fun out g =>
        quantizeColorGPU input out rows cols (d_quantizedColors K) K g.1 g.2) output
      = some (quantizedBuffer input K (3 * rows * cols)) := by
  obtain ⟨out, hrun, hlen, hcov, -⟩ :=
    foldlM_inGrid input rows cols K hsize hin hK l (fun g hg => (hl g).mp hg) output hout
  rw [hrun]
  congr 1
  apply List.ext_getElem?
  intro p
  by_cases hp : p < 3 * rows * cols
  · rw [getElem?_quantizedBuffer input K _ p hp]
    apply hcov p hp
    have hidx : p / 3 < cols * rows := by
      rw [Nat.mul_assoc, Nat.mul_comm rows cols] at hp
      omega
    have hc : 0 < cols := Nat.pos_of_ne_zero (by rintro rfl; simp at hidx)
    exact ⟨(p / 3 % cols, p / 3 / cols),
      (hl _).mpr ⟨Nat.mod_lt _ hc, Nat.div_lt_of_lt_mul hidx⟩, Nat.div_add_mod' _ _⟩
  · rw [List.getElem?_eq_none (by omega),
      List.getElem?_eq_none (by rw [length_quantizedBuffer]; omega)]

theorem clEnqueueNDRangeKernel_eq (input output : List uchar) (rows cols : Nat) (K : Int)
    (hsize : 3 * rows * cols ≤ 2147483647) (hin : input.length = 3 * rows * cols)
    (hout : output.length = 3 * rows * cols) (hK : 4 ≤ K ∧ K ≤ 10) :
    clEnqueueNDRangeKernel input output rows cols (d_quantizedColors K) K cols rows
      = some (quantizedBuffer input K (3 * rows * cols)) :=
  foldlM_any_order input output rows cols K hsize hin hout hK (globalIds cols rows)
    (mem_globalIds cols rows)

theorem clEnqueueNDRangeKernel_one_pixel (b0 b1 b2 o0 o1 o2 : uchar) (K : Int)
    (hK : 4 ≤ K ∧ K ≤ 10) :
    clEnqueueNDRangeKernel [b0, b1, b2] [o0, o1, o2] 1 1 (d_quantizedColors K) K 1 1
      = some (quantizedBuffer [b0, b1, b2] K 3) :=
  clEnqueueNDRangeKernel_eq [b0, b1, b2] [o0, o1, o2] 1 1 K (by decide) rfl rfl hK

theorem getElem?_palette_pixelColor (input : List uchar) (K : Int) (idx : Nat)
    (hK : 4 ≤ K ∧ K ≤ 10) :
    h_quantizedColors[(quantIndexOf (intensityOf (input.getD (3 * idx + 2) 0).val
        (input.getD (3 * idx + 1) 0).val (input.getD (3 * idx) 0).val) K).toNat]?
      = some (pixelColor input K idx) := by
  have b2 := (input.getD (3 * idx + 2) 0).isLt
  have b1 := (input.getD (3 * idx + 1) 0).isLt
  have b0 := (input.getD (3 * idx) 0).isLt
  have ht := intensityOf_range (input.getD (3 * idx + 2) 0).val
    (input.getD (3 * idx + 1) 0).val (input.getD (3 * idx) 0).val
    (by omega) (by omega) (by omega)
  have hq := quantIndexOf_range _ K ⟨ht.1, ht.2.1⟩ hK
  obtain ⟨c, hc, hc2⟩ := load_d_quantizedColors _ K hK ⟨hq.1, hq.2.1⟩
  rw [load_palette input K idx hK] at hc
  rw [hc2, hc]

theorem quantIndex_toNat (b0 b1 b2 : uchar) (K : Nat) (hK : 4 ≤ K ∧ K ≤ 10) :
    (quantIndexOf (intensityOf b2.val b1.val b0.val) K).toNat
      = (b0.val + b1.val + b2.val) / 3 * (K - 1) / 255 := by
  have h2 := b2.isLt
  have h1 := b1.isLt
  have h0 := b0.isLt
  have ht := intensityOf_range (b2.val : Int) b1.val b0.val (by omega) (by omega) (by omega)
  rw [quantIndexOf_exact _ K ⟨ht.1, ht.2.1⟩ (by omega),
    intensityOf_exact (b2.val : Int) b1.val b0.val (by omega) (by omega) (by omega)]
  obtain ⟨h4, h10⟩ := hK
  interval_cases K <;> omega

/-! ## Quantizing a quantized buffer -/

theorem getD_quantizedBuffer (input : List uchar) (K : Int) (n p : Nat) (hp : p < n) :
    (quantizedBuffer input K n).getD p 0 = (pixelColor input K (p / 3)).comp (p % 3) := by
  rw [List.getD_eq_getElem?_getD, getElem?_quantizedBuffer input K n p hp]
  rfl

theorem pixelColor_quantizedBuffer (input : List uchar) (K : Int) (m idx : Nat)
    (h : idx < m) :
    pixelColor (quantizedBuffer input K (3 * m)) K idx
      = quantizePixel K (pixelColor input K idx).x (pixelColor input K idx).y
          (pixelColor input K idx).z := by
  have e0 : 3 * idx / 3 = idx := by omega
  have e1 : (3 * idx + 1) / 3 = idx := by omega
  have e2 : (3 * idx + 2) / 3 = idx := by omega
  have r0 : 3 * idx % 3 = 0 := by omega
  have r1 : (3 * idx + 1) % 3 = 1 := by omega
  have r2 : (3 * idx + 2) % 3 = 2 := by omega
  rw [pixelColor, getD_quantizedBuffer input K _ _ (by omega : 3 * idx < 3 * m),
    getD_quantizedBuffer input K _ _ (by omega : 3 * idx + 1 < 3 * m),
    getD_quantizedBuffer input K _ _ (by omega : 3 * idx + 2 < 3 * m),
    e0, e1, e2, r0, r1, r2, uchar3.comp_zero, uchar3.comp_one, uchar3.comp_two]

theorem uchar3.eq_of_comp (c d : uchar3) (h0 : c.comp 0 = d.comp 0)
    (h1 : c.comp 1 = d.comp 1) (h2 : c.comp 2 = d.comp 2) : c = d := by
  rw [uchar3.comp_zero, uchar3.comp_zero] at h0
  rw [uchar3.comp_one, uchar3.comp_one] at h1
  rw [uchar3.comp_two, uchar3.comp_two] at h2
  cases c
  cases d
  simp only at h0 h1 h2
  rw [h0, h1, h2]

theorem quantizedBuffer_eq_iff (a b : List uchar) (K : Int) (m : Nat) :
    quantizedBuffer a K (3 * m) = quantizedBuffer b K (3 * m) ↔
      ∀ idx, idx < m → pixelColor a K idx = pixelColor b K idx := by
  constructor
  · intro h idx hidx
    have e0 : 3 * idx / 3 = idx := by omega
    have e1 : (3 * idx + 1) / 3 = idx := by omega
    have e2 : (3 * idx + 2) / 3 = idx := by omega
    have r0 : 3 * idx % 3 = 0 := by omega
    have r1 : (3 * idx + 1) % 3 = 1 := by omega
    have r2 : (3 * idx + 2) % 3 = 2 := by omega
    have g0 := congrArg (fun l => l.getD (3 * idx) 0) h
    have g1 := congrArg (fun l => l.getD (3 * idx + 1) 0) h
    have g2 := congrArg (fun l => l.getD (3 * idx + 2) 0) h
    simp only at g0 g1 g2
    rw [getD_quantizedBuffer a K _ _ (by omega), getD_quantizedBuffer b K _ _ (by omega),
      e0, r0] at g0
    rw [getD_quantizedBuffer a K _ _ (by omega), getD_quantizedBuffer b K _ _ (by omega),
      e1, r1] at g1
    rw [getD_quantizedBuffer a K _ _ (by omega), getD_quantizedBuffer b K _ _ (by omega),
      e2, r2] at g2
    exact uchar3.eq_of_comp _ _ g0 g1 g2
  · intro h
    apply List.ext_getElem?
    intro p
    by_cases hp : p < 3 * m
    · rw [getElem?_quantizedBuffer a K _ p hp, getElem?_quantizedBuffer b K _ p hp,
        h (p / 3) (by omega)]
    · rw [List.getElem?_eq_none (by rw [length_quantizedBuffer]; omega),
        List.getElem?_eq_none (by rw [length_quantizedBuffer]; omega)]

theorem quantizePixel_palette_fixed (K q : Int) (hK : 4 ≤ K ∧ K ≤ 10)
    (hq : 0 ≤ q ∧ q ≤ K - 1) :
    quantizePixel K (h_quantizedColors.getD q.toNat ⟨0, 0, 0⟩).x
        (h_quantizedColors.getD q.toNat ⟨0, 0, 0⟩).y
        (h_quantizedColors.getD q.toNat ⟨0, 0, 0⟩).z
      = h_quantizedColors.getD q.toNat ⟨0, 0, 0⟩ ↔
      q = 0 ∨ (q = 1 ∧ 8 ≤ K) ∨ (q = 2 ∧ 7 ≤ K ∧ K ≤ 9) := by
  obtain ⟨h4, h10⟩ := hK
  obtain ⟨q0, qK⟩ := hq
  interval_cases K <;> interval_cases q <;> decide

theorem getD_of_getElem? (l : List uchar) (n : Nat) (b : uchar) (h : l[n]? = some b) :
    l.getD n 0 = b := by
  rw [List.getD_eq_getElem?_getD, h]
  rfl

theorem pixelColor_fixed_iff (input : List uchar) (K : Int) (m idx : Nat) (hidx : idx < m)
    (hK : 4 ≤ K ∧ K ≤ 10) (b0 b1 b2 : uchar) (h0 : input[3 * idx]? = some b0)
    (h1 : input[3 * idx + 1]? = some b1) (h2 : input[3 * idx + 2]? = some b2) :
    pixelColor (quantizedBuffer input K (3 * m)) K idx = pixelColor input K idx ↔
      quantIndexOf (intensityOf b2.val b1.val b0.val) K = 0 ∨
        (quantIndexOf (intensityOf b2.val b1.val b0.val) K = 1 ∧ 8 ≤ K) ∨
        (quantIndexOf (intensityOf b2.val b1.val b0.val) K = 2 ∧ 7 ≤ K ∧ K ≤ 9) := by
  have hpc : pixelColor input K idx
      = h_quantizedColors.getD
          (quantIndexOf (intensityOf b2.val b1.val b0.val) K).toNat ⟨0, 0, 0⟩ := by
    rw [pixelColor, getD_of_getElem? input _ b0 h0, getD_of_getElem? input _ b1 h1,
      getD_of_getElem? input _ b2 h2, quantizePixel]
  have l2 := b2.isLt
  have l1 := b1.isLt
  have l0 := b0.isLt
  have ht := intensityOf_range (b2.val : Int) b1.val b0.val (by omega) (by omega) (by omega)
  have hq := quantIndexOf_range _ K ⟨ht.1, ht.2.1⟩ hK
  rw [pixelColor_quantizedBuffer input K m idx hidx, hpc]
  exact quantizePixel_palette_fixed K _ hK ⟨hq.1, hq.2.1⟩

/-! ## `quantizeAndSave` on an image whose byte count fits `image_size` -/

theorem size_t_natCast (n : Nat) (h : n ≤ 2147483647) : size_t (n : Int) = n := by
  unfold size_t
  omega

theorem image_size_natCast (rows cols : Nat) (data : List uchar)
    (hsize : 3 * rows * cols ≤ 2147483647) :
    image_size ⟨rows, cols, data⟩ = ((3 * rows * cols : Nat) : Int) := by
  have h3 : rows * cols * 3 = 3 * rows * cols := by
    rw [Nat.mul_comm (rows * cols) 3, Nat.mul_assoc]
  have hrc : rows * cols ≤ 2147483647 := by omega
  have e1 : imul (rows : Int) (cols : Int) = ((rows * cols : Nat) : Int) :=
    imul_natCast rows cols hrc
  have e2 : imul ((rows * cols : Nat) : Int) 3 = ((rows * cols * 3 : Nat) : Int) :=
    imul_natCast (rows * cols) 3 (by omega)
  unfold image_size
  rw [e1, e2, h3]

theorem dims_le (rows cols : Nat) (hrows : 0 < rows) (hcols : 0 < cols)
    (hsize : 3 * rows * cols ≤ 2147483647) : rows ≤ 2147483647 ∧ cols ≤ 2147483647 := by
  rw [Nat.mul_assoc] at hsize
  have hrc : rows ≤ rows * cols := Nat.le_mul_of_pos_right rows hcols
  have hcr : cols ≤ rows * cols := Nat.le_mul_of_pos_left cols hrows
  constructor <;> omega

theorem quantizeAndSave_eq (input : List uchar) (rows cols : Nat) (K : Int)
    (uninit : Nat → uchar) (hrows : 0 < rows) (hcols : 0 < cols)
    (hsize : 3 * rows * cols ≤ 2147483647) (hin : input.length = 3 * rows * cols)
    (hK : 4 ≤ K ∧ K ≤ 10) :
    quantizeAndSave ⟨rows, cols, input⟩ K uninit
      = some ⟨rows, cols, quantizedBuffer input K (3 * rows * cols)⟩ := by
  obtain ⟨hr, hc⟩ := dims_le rows cols hrows hcols hsize
  have hnn : ¬ ((3 * rows * cols : Nat) : Int) < 0 := Int.not_lt.mpr (Int.ofNat_nonneg _)
  have htake : input.take (3 * rows * cols) = input := List.take_of_length_le (by omega)
  have hlen : ((List.range (3 * rows * cols)).map uninit).length = 3 * rows * cols := by
    rw [List.length_map, List.length_range]
  unfold quantizeAndSave
  rw [image_size_natCast rows cols input hsize, if_neg hnn, Int.toNat_ofNat, htake,
    size_t_natCast rows hr, size_t_natCast cols hc,
    clEnqueueNDRangeKernel_eq input _ rows cols K hsize hin hlen hK]
  rfl

/-- Just above the bound: on a 1 × 715827883 image (2147483649 bytes) line 51
gives a negative `image_size`, the allocation of line 54 throws and the kernel
is not run. -/
theorem quantizeAndSave_image_size_negative (data : List uchar) (K : Int)
    (uninit : Nat → uchar) :
    image_size ⟨1, 715827883, data⟩ = -2147483647 ∧
      quantizeAndSave ⟨1, 715827883, data⟩ K uninit = none := by
  have h : image_size ⟨1, 715827883, data⟩ = -2147483647 := by
    show imul (imul 1 715827883) 3 = -2147483647
    decide
  refine ⟨h, ?_⟩
  unfold quantizeAndSave
  rw [h, if_pos (by decide)]

/-! ## The loop of `main` -/

theorem callCount_append (tr tr' : List Event) :
    callCount (tr ++ tr') = callCount tr + callCount tr' := by
  simp [callCount, List.filter_append]

theorem callCount_runEvents (K : Int) (run : Nat) : callCount (runEvents K run) = 3 := rfl

theorem callCount_snoc_call (tr : List Event) (run image : Nat) (p : String) (K : Int) :
    callCount (tr ++ [Event.quantizeAndSave run image p K]) = callCount tr + 1 := by
  rw [callCount_append]
  rfl

theorem callCount_take_one (tr : List Event) (K : Int) (run : Nat) :
    callCount (tr ++ (runEvents K run).take 1) = callCount tr + 1 := by
  rw [callCount_append]
  rfl

theorem callCount_take_two (tr : List Event) (K : Int) (run : Nat) :
    callCount (tr ++ (runEvents K run).take 2) = callCount tr + 2 := by
  rw [callCount_append]
  rfl

theorem loopBody_eq (w : World) (K : Int) (run : Nat) (tr : List Event) :
    loopBody w K run tr =
      if w.throws (callCount tr) then ((tr ++ (runEvents K run).take 1), false)
      else if w.throws (callCount tr + 1) then ((tr ++ (runEvents K run).take 2), false)
      else (tr ++ runEvents K run, !w.throws (callCount tr + 1 + 1)) := by
  unfold loopBody call
  simp only [callCount_snoc_call, runEvents]
  cases w.throws (callCount tr) <;> cases w.throws (callCount tr + 1) <;> simp

theorem forLoop_cons_throw0 (w : World) (K : Int) (run : Nat) (rest : List Nat)
    (tr : List Event) (h0 : w.throws (callCount tr) = true) :
    forLoop w K (run :: rest) tr = (tr ++ (runEvents K run).take 1, false) := by
  rw [forLoop, loopBody_eq]
  simp [h0]

theorem forLoop_cons_throw1 (w : World) (K : Int) (run : Nat) (rest : List Nat)
    (tr : List Event) (h0 : w.throws (callCount tr) = false)
    (h1 : w.throws (callCount tr + 1) = true) :
    forLoop w K (run :: rest) tr = (tr ++ (runEvents K run).take 2, false) := by
  rw [forLoop, loopBody_eq]
  simp [h0, h1]

theorem forLoop_cons_throw2 (w : World) (K : Int) (run : Nat) (rest : List Nat)
    (tr : List Event) (h0 : w.throws (callCount tr) = false)
    (h1 : w.throws (callCount tr + 1) = false) (h2 : w.throws (callCount tr + 1 + 1) = true) :
    forLoop w K (run :: rest) tr = (tr ++ runEvents K run, false) := by
  rw [forLoop, loopBody_eq]
  simp [h0, h1, h2]

theorem forLoop_cons_ok (w : World) (K : Int) (run : Nat) (rest : List Nat)
    (tr : List Event) (h0 : w.throws (callCount tr) = false)
    (h1 : w.throws (callCount tr + 1) = false) (h2 : w.throws (callCount tr + 1 + 1) = false) :
    forLoop w K (run :: rest) tr = forLoop w K rest (tr ++ runEvents K run) := by
  rw [forLoop, loopBody_eq]
  simp [h0, h1, h2]

theorem forLoop_spec (w : World) (K : Int) :
    ∀ (runs : List Nat) (tr : List Event),
      ((forLoop w K runs tr).2 = true ↔
        ∀ n, callCount tr ≤ n → n < callCount tr + 3 * runs.length → w.throws n = false) ∧
      ((forLoop w K runs tr).2 = true →
        (forLoop w K runs tr).1 = tr ++ runs.flatMap (runEvents K)) ∧
      (∀ n, callCount tr ≤ n → w.throws n = true → callCount (forLoop w K runs tr).1 ≤ n + 1) ∧
      ∃ rest, (forLoop w K runs tr).1 = tr ++ rest := by
  intro runs
  induction runs with
  | nil =>
    intro tr
    refine ⟨⟨fun _ n h1 h2 => ?_, fun _ => rfl⟩, fun _ => by simp [forLoop], ?_, [],
      by simp [forLoop]⟩
    · simp only [List.length_nil] at h2
      omega
    · intro n hn _
      simp only [forLoop]
      omega
  | cons run rest ih =>
    intro tr
    have hlen : (run :: rest).length = rest.length + 1 := rfl
    rw [hlen]
    by_cases h0 : w.throws (callCount tr) = true
    · rw [forLoop_cons_throw0 w K run rest tr h0]
      refine ⟨⟨fun h => by simp at h, fun h => ?_⟩, fun h => by simp at h, ?_, _, rfl⟩
      · have := h (callCount tr) (Nat.le_refl _) (by omega)
        rw [h0] at this
        exact absurd this (by decide)
      · intro n hn _
        show callCount (tr ++ (runEvents K run).take 1) ≤ n + 1
        rw [callCount_take_one]
        omega
    · have h0' : w.throws (callCount tr) = false := by simpa using h0
      by_cases h1 : w.throws (callCount tr + 1) = true
      · rw [forLoop_cons_throw1 w K run rest tr h0' h1]
        refine ⟨⟨fun h => by simp at h, fun h => ?_⟩, fun h => by simp at h, ?_, _, rfl⟩
        · have := h (callCount tr + 1) (by omega) (by omega)
          rw [h1] at this
          exact absurd this (by decide)
        · intro n hn ht
          have : n ≠ callCount tr := fun e => by rw [e, h0'] at ht; exact absurd ht (by decide)
          show callCount (tr ++ (runEvents K run).take 2) ≤ n + 1
          rw [callCount_take_two]
          omega
      · have h1' : w.throws (callCount tr + 1) = false := by simpa using h1
        by_cases h2 : w.throws (callCount tr + 1 + 1) = true
        · rw [forLoop_cons_throw2 w K run rest tr h0' h1' h2]
          refine ⟨⟨fun h => by simp at h, fun h => ?_⟩, fun h => by simp at h, ?_, _, rfl⟩
          · have := h (callCount tr + 1 + 1) (by omega) (by omega)
            rw [h2] at this
            exact absurd this (by decide)
          · intro n hn ht
            have e0 : n ≠ callCount tr := fun e => by
              rw [e, h0'] at ht; exact absurd ht (by decide)
            have e1 : n ≠ callCount tr + 1 := fun e => by
              rw [e, h1'] at ht; exact absurd ht (by decide)
            show callCount (tr ++ runEvents K run) ≤ n + 1
            rw [callCount_append, callCount_runEvents]
            omega
        · have h2' : w.throws (callCount tr + 1 + 1) = false := by simpa using h2
          rw [forLoop_cons_ok w K run rest tr h0' h1' h2']
          obtain ⟨i1, i2, i3, rest', i4⟩ := ih (tr ++ runEvents K run)
          rw [callCount_append, callCount_runEvents] at i1 i3
          refine ⟨⟨fun h n hn hlt => ?_, fun h => ?_⟩, fun h => ?_, fun n hn ht => ?_,
            runEvents K run ++ rest', ?_⟩
          · by_cases e0 : n = callCount tr
            · rw [e0]; exact h0'
            · by_cases e1 : n = callCount tr + 1
              · rw [e1]; exact h1'
              · by_cases e2 : n = callCount tr + 1 + 1
                · rw [e2]; exact h2'
                · exact i1.mp h n (by omega) (by omega)
          · exact i1.mpr (fun n hn hlt => h n (by omega) (by omega))
          · rw [i2 h, List.flatMap_cons, List.append_assoc]
          · have e0 : n ≠ callCount tr := fun e => by
              rw [e, h0'] at ht; exact absurd ht (by decide)
            have e1 : n ≠ callCount tr + 1 := fun e => by
              rw [e, h1'] at ht; exact absurd ht (by decide)
            have e2 : n ≠ callCount tr + 1 + 1 := fun e => by
              rw [e, h2'] at ht; exact absurd ht (by decide)
            exact i3 n (by omega) ht
          · rw [i4, List.append_assoc]

/-! ## `main` -/

theorem mainWith_rejected (K : Int) (numRuns : Nat) (w : World) (h : K < 4 ∨ K > 10) :
    mainWith K numRuns w = (1, []) := by
  unfold mainWith
  rw [if_pos h]

theorem mainWith_empty (K : Int) (numRuns : Nat) (w : World) (hK : 4 ≤ K ∧ K ≤ 10)
    (he : (w.empty "data/f1024x768.jpg" || w.empty "data/f1280x960.jpg"
      || w.empty "data/f2560x1440.jpg") = true) :
    mainWith K numRuns w = (1, inputReads) := by
  unfold mainWith
  rw [if_neg (by omega)]
  simp only [he, if_true]

theorem mainWith_loaded (K : Int) (numRuns : Nat) (w : World) (hK : 4 ≤ K ∧ K ≤ 10)
    (he : (w.empty "data/f1024x768.jpg" || w.empty "data/f1280x960.jpg"
      || w.empty "data/f2560x1440.jpg") = false) :
    mainWith K numRuns w =
      if (forLoop w K (List.range numRuns) inputReads).2 then
        (0, (forLoop w K (List.range numRuns) inputReads).1)
      else (1, (forLoop w K (List.range numRuns) inputReads).1) := by
  unfold mainWith
  rw [if_neg (by omega)]
  simp only [he, Bool.false_eq_true, if_false]

theorem callCount_inputReads : callCount inputReads = 0 := rfl

theorem callCount_flatMap_runEvents (K : Int) (m : Nat) :
    callCount ((List.range m).flatMap (runEvents K)) = 3 * m := by
  induction m with
  | zero => rfl
  | succ m ihm =>
    rw [List.range_succ, List.flatMap_append, callCount_append, ihm,
      List.flatMap_singleton, callCount_runEvents]
    omega

theorem outputFilename_one (K : Int) :
    outputFilename 1 K = "result/quantized_f1024x768_k" ++ toString K ++ ".jpg" := rfl

theorem outputFilename_two (K : Int) :
    outputFilename 2 K = "result/quantized_f1280x960_k" ++ toString K ++ ".jpg" := rfl

theorem outputFilename_three (K : Int) :
    outputFilename 3 K = "result/quantized_f2560x1440_k" ++ toString K ++ ".jpg" := rfl

theorem outputFilename_cases (image : Nat) (K : Int) :
    outputFilename image K = outputFilename 1 K ∨ outputFilename image K = outputFilename 2 K ∨
      outputFilename image K = outputFilename 3 K := by
  unfold outputFilename
  split
  · exact Or.inl rfl
  · exact Or.inr (Or.inl rfl)
  · exact Or.inr (Or.inr rfl)

theorem callPaths_append (tr tr' : List Event) :
    callPaths (tr ++ tr') = callPaths tr ++ callPaths tr' := by
  induction tr with
  | nil => rfl
  | cons e tr ih =>
    cases e with
    | imread f => simpa [callPaths] using ih
    | quantizeAndSave r i p k => simpa [callPaths] using ih

theorem callPaths_flatMap_runEvents (K : Int) (m : Nat) :
    callPaths ((List.range m).flatMap (runEvents K))
      = (List.range m).flatMap
          (fun _ => [outputFilename 1 K, outputFilename 2 K, outputFilename 3 K]) := by
  induction m with
  | zero => rfl
  | succ m ihm =>
    rw [List.range_succ, List.flatMap_append, List.flatMap_append, callPaths_append, ihm,
      List.flatMap_singleton, List.flatMap_singleton]
    rfl

theorem mainWith_trace_of_ok (K : Int) (numRuns : Nat) (w : World)
    (hok : (mainWith K numRuns w).1 = 0) :
    (mainWith K numRuns w).2 = inputReads ++ (List.range numRuns).flatMap (runEvents K) := by
  have hne : ∀ tr : List Event, ¬ ((1 : Int), tr).1 = 0 := fun _ => Int.one_ne_zero
  by_cases hbad : K < 4 ∨ K > 10
  · rw [mainWith_rejected K numRuns w hbad] at hok
    exact absurd hok (hne _)
  · have hK : 4 ≤ K ∧ K ≤ 10 := by omega
    cases he : (w.empty "data/f1024x768.jpg" || w.empty "data/f1280x960.jpg"
        || w.empty "data/f2560x1440.jpg") with
    | true =>
      rw [mainWith_empty K numRuns w hK he] at hok
      exact absurd hok (hne _)
    | false =>
      rw [mainWith_loaded K numRuns w hK he] at hok ⊢
      obtain ⟨-, i2, -, -⟩ := forLoop_spec w K (List.range numRuns) inputReads
      by_cases hl : (forLoop w K (List.range numRuns) inputReads).2 = true
      · rw [if_pos hl]
        exact i2 hl
      · rw [if_neg hl] at hok
        exact absurd hok (hne _)

theorem outputFilename_ne (K : Int) :
    outputFilename 1 K ≠ outputFilename 2 K ∧ outputFilename 1 K ≠ outputFilename 3 K ∧
      outputFilename 2 K ≠ outputFilename 3 K := by
  rw [outputFilename_one, outputFilename_two, outputFilename_three]
  refine ⟨fun h => ?_, fun h => ?_, fun h => ?_⟩
  · have h2 := congrArg String.data h
    simp only [String.data_append] at h2
    have h3 := congrArg (fun l => l.take 20) h2
    simp at h3
  · have h2 := congrArg String.data h
    simp only [String.data_append] at h2
    have h3 := congrArg (fun l => l.take 20) h2
    simp at h3
  · have h2 := congrArg String.data h
    simp only [String.data_append] at h2
    have h3 := congrArg (fun l => l.take 20) h2
    simp at h3

/-! ## Claims about the kernel -/

/-- C1: for every image that `quantizeAndSave` hands to the kernel (`rows > 0`,
`cols > 0`, `3 * rows * cols` bytes, a count that the `int image_size` of
line 51 holds), an output buffer of as many bytes with any contents, and every
`K` in `[4,10]`, the kernel run over the `cols × rows` grid produces an output
buffer of length `3 * rows * cols` whose pixel `idx = i * cols + j` holds the
`x`, `y`, `z` components of `h_quantizedColors[q]`, with
`q = ((in[3*idx] + in[3*idx+1] + in[3*idx+2]) / 3) * (K - 1) / 255` in truncating
division; and the `Mat` that `quantizeAndSave` builds from that buffer has the
same `rows` and `cols` as the input. -/
theorem C1_kernel_output (input output : List uchar) (rows cols K : Nat)
    (uninit : Nat → uchar) (hrows : 0 < rows) (hcols : 0 < cols)
    (hsize : 3 * rows * cols ≤ 2147483647)
    (hin : input.length = 3 * rows * cols) (hout : output.length = 3 * rows * cols)
    (hK : 4 ≤ K ∧ K ≤ 10) :
    ∃ out, clEnqueueNDRangeKernel input output rows cols (d_quantizedColors K) K cols rows
        = some out ∧
      out.length = 3 * rows * cols ∧
      quantizeAndSave ⟨rows, cols, input⟩ K uninit = some ⟨rows, cols, out⟩ ∧
      ∀ i j, i < rows → j < cols →
        ∃ b0 b1 b2 c,
          input[3 * (i * cols + j)]? = some b0 ∧
          input[3 * (i * cols + j) + 1]? = some b1 ∧
          input[3 * (i * cols + j) + 2]? = some b2 ∧
          h_quantizedColors[(b0.val + b1.val + b2.val) / 3 * (K - 1) / 255]? = some c ∧
          out[3 * (i * cols + j)]? = some c.x ∧
          out[3 * (i * cols + j) + 1]? = some c.y ∧
          out[3 * (i * cols + j) + 2]? = some c.z := by
  have hKi : (4 : Int) ≤ (K : Int) ∧ (K : Int) ≤ 10 := by omega
  refine ⟨_, clEnqueueNDRangeKernel_eq input output rows cols K hsize hin hout hKi,
    length_quantizedBuffer _ _ _,
    quantizeAndSave_eq input rows cols K uninit hrows hcols hsize hin hKi, ?_⟩
  intro i j hi hj
  obtain ⟨-, -, -, -, -, -, -, blt⟩ := index_bounds rows cols j i hsize hj hi
  generalize i * cols + j = idx at blt
  have hpal := getElem?_palette_pixelColor input K idx hKi
  rw [quantIndex_toNat _ _ _ K hK] at hpal
  refine ⟨input.getD (3 * idx) 0, input.getD (3 * idx + 1) 0, input.getD (3 * idx + 2) 0,
    pixelColor input K idx,
    getElem?_eq_some_getD input _ 0 (by omega), getElem?_eq_some_getD input _ 0 (by omega),
    getElem?_eq_some_getD input _ 0 (by omega), hpal, ?_, ?_, ?_⟩
  · rw [getElem?_quantizedBuffer input K _ _ (by omega)]
    have e1 : 3 * idx / 3 = idx := by omega
    have e2 : 3 * idx % 3 = 0 := by omega
    rw [e1, e2, uchar3.comp_zero]
  · rw [getElem?_quantizedBuffer input K _ _ (by omega)]
    have e1 : (3 * idx + 1) / 3 = idx := by omega
    have e2 : (3 * idx + 1) % 3 = 1 := by omega
    rw [e1, e2, uchar3.comp_one]
  · rw [getElem?_quantizedBuffer input K _ _ (by omega)]
    have e1 : (3 * idx + 2) / 3 = idx := by omega
    have e2 : (3 * idx + 2) % 3 = 2 := by omega
    rw [e1, e2, uchar3.comp_two]

/-- Witness of `C1_kernel_output`: a 1 × 2 image at `K = 10`. -/
theorem C1_kernel_output_witness :
    ∃ out, clEnqueueNDRangeKernel [255, 255, 255, 90, 80, 70] [1, 2, 3, 4, 5, 6]
          ((1 : Nat) : Int) ((2 : Nat) : Int) (d_quantizedColors ((10 : Nat) : Int))
          ((10 : Nat) : Int) 2 1 = some out ∧
      out.length = 3 * 1 * 2 ∧
      quantizeAndSave ⟨((1 : Nat) : Int), ((2 : Nat) : Int), [255, 255, 255, 90, 80, 70]⟩
          ((10 : Nat) : Int) (fun _ => 0)
        = some ⟨((1 : Nat) : Int), ((2 : Nat) : Int), out⟩ ∧
      ∀ i j, i < 1 → j < 2 →
        ∃ b0 b1 b2 c,
          ([255, 255, 255, 90, 80, 70] : List uchar)[3 * (i * 2 + j)]? = some b0 ∧
          ([255, 255, 255, 90, 80, 70] : List uchar)[3 * (i * 2 + j) + 1]? = some b1 ∧
          ([255, 255, 255, 90, 80, 70] : List uchar)[3 * (i * 2 + j) + 2]? = some b2 ∧
          h_quantizedColors[(b0.val + b1.val + b2.val) / 3 * (10 - 1) / 255]? = some c ∧
          out[3 * (i * 2 + j)]? = some c.x ∧
          out[3 * (i * 2 + j) + 1]? = some c.y ∧
          out[3 * (i * 2 + j) + 2]? = some c.z :=
  C1_kernel_output [255, 255, 255, 90, 80, 70] [1, 2, 3, 4, 5, 6] 1 2 10 (fun _ => 0)
    (by decide) (by decide) (by decide) rfl rfl (by decide)

/-- C2: for channel values in `[0,255]` and `K` in `[4,10]` the index computed on
lines 29-30 lies in `[0, K-1]`, below the `K` entries of the device palette, so
the read `quantizedColors[quantIndex]` on line 32 is inside the buffer. -/
theorem C2_index_in_palette (c2 c1 c0 K : Int) (h2 : 0 ≤ c2 ∧ c2 ≤ 255)
    (h1 : 0 ≤ c1 ∧ c1 ≤ 255) (h0 : 0 ≤ c0 ∧ c0 ≤ 255) (hK : 4 ≤ K ∧ K ≤ 10) :
    0 ≤ quantIndexOf (intensityOf c2 c1 c0) K ∧
      quantIndexOf (intensityOf c2 c1 c0) K ≤ K - 1 ∧
      ((d_quantizedColors K).length : Int) = K ∧
      ∃ c, load (d_quantizedColors K) (quantIndexOf (intensityOf c2 c1 c0) K) = some c := by
  have ht := intensityOf_range c2 c1 c0 h2 h1 h0
  have hq := quantIndexOf_range _ K ⟨ht.1, ht.2.1⟩ hK
  obtain ⟨c, hc, -⟩ := load_d_quantizedColors _ K hK ⟨hq.1, hq.2.1⟩
  refine ⟨hq.1, hq.2.1, ?_, c, hc⟩
  obtain ⟨h4, h10⟩ := hK
  interval_cases K <;> rfl

/-- Witness of `C2_index_in_palette`: a white pixel at `K = 10`. -/
theorem C2_index_in_palette_witness :
    0 ≤ quantIndexOf (intensityOf 255 255 255) 10 ∧
      quantIndexOf (intensityOf 255 255 255) 10 ≤ 10 - 1 ∧
      ((d_quantizedColors 10).length : Int) = 10 ∧
      ∃ c, load (d_quantizedColors 10) (quantIndexOf (intensityOf 255 255 255) 10) = some c :=
  C2_index_in_palette 255 255 255 10 (by decide) (by decide) (by decide) (by decide)

/-- C4: for a fixed `K` in `[4,10]` the index of line 30 is monotone in the
intensity on `[0,255]`, and equals `(x * (K - 1)) / 255` in truncating division. -/
theorem C4_monotone (a b K : Int) (ha : 0 ≤ a) (hab : a ≤ b) (hb : b ≤ 255)
    (hK : 4 ≤ K ∧ K ≤ 10) :
    quantIndexOf a K ≤ quantIndexOf b K ∧
      quantIndexOf a K = (a * (K - 1)).tdiv 255 ∧
      quantIndexOf b K = (b * (K - 1)).tdiv 255 := by
  have hmula : 0 ≤ a * (K - 1) := Int.mul_nonneg ha (by omega)
  have hmulb : 0 ≤ b * (K - 1) := Int.mul_nonneg (by omega) (by omega)
  rw [Int.tdiv_eq_ediv hmula (by decide), Int.tdiv_eq_ediv hmulb (by decide),
    quantIndexOf_exact a K ⟨ha, by omega⟩ hK, quantIndexOf_exact b K ⟨by omega, hb⟩ hK]
  refine ⟨?_, rfl, rfl⟩
  obtain ⟨h4, h10⟩ := hK
  interval_cases K <;> omega

/-- Witness of `C4_monotone`: intensities 84 and 85 at `K = 10`. -/
theorem C4_monotone_witness :
    quantIndexOf 84 10 ≤ quantIndexOf 85 10 ∧
      quantIndexOf 84 10 = ((84 : Int) * (10 - 1)).tdiv 255 ∧
      quantIndexOf 85 10 = ((85 : Int) * (10 - 1)).tdiv 255 :=
  C4_monotone 84 85 10 (by decide) (by decide) (by decide) (by decide)

/-- C8: for channel values in `[0,255]` and `K` in `[4,10]` every intermediate
value of lines 29-30 (the partial and full channel sum, the intensity, `K - 1`,
the product and the index) lies in `[0, INT_MAX]`, the intensity lies in
`[0,255]`, and the wrapping 32-bit computation equals the exact one. -/
theorem C8_no_overflow (c2 c1 c0 K : Int) (h2 : 0 ≤ c2 ∧ c2 ≤ 255)
    (h1 : 0 ≤ c1 ∧ c1 ≤ 255) (h0 : 0 ≤ c0 ∧ c0 ≤ 255) (hK : 4 ≤ K ∧ K ≤ 10) :
    (0 ≤ c2 + c1 ∧ c2 + c1 ≤ INT_MAX) ∧
      (0 ≤ c2 + c1 + c0 ∧ c2 + c1 + c0 ≤ INT_MAX) ∧
      (0 ≤ (c2 + c1 + c0).tdiv 3 ∧ (c2 + c1 + c0).tdiv 3 ≤ 255) ∧
      (0 ≤ K - 1 ∧ K - 1 ≤ INT_MAX) ∧
      (0 ≤ (c2 + c1 + c0).tdiv 3 * (K - 1) ∧ (c2 + c1 + c0).tdiv 3 * (K - 1) ≤ INT_MAX) ∧
      (0 ≤ ((c2 + c1 + c0).tdiv 3 * (K - 1)).tdiv 255 ∧
        ((c2 + c1 + c0).tdiv 3 * (K - 1)).tdiv 255 ≤ INT_MAX) ∧
      intensityOf c2 c1 c0 = (c2 + c1 + c0).tdiv 3 ∧
      quantIndexOf (intensityOf c2 c1 c0) K
        = ((c2 + c1 + c0).tdiv 3 * (K - 1)).tdiv 255 := by
  have ht := intensityOf_range c2 c1 c0 h2 h1 h0
  have hq := quantIndexOf_range _ K ⟨ht.1, ht.2.1⟩ hK
  have hqe := quantIndexOf_exact _ K ⟨ht.1, ht.2.1⟩ hK
  have hte := intensityOf_exact c2 c1 c0 h2 h1 h0
  have e3 : (c2 + c1 + c0).tdiv 3 = (c2 + c1 + c0) / 3 :=
    Int.tdiv_eq_ediv (by omega) (by decide)
  rw [e3, ← hte]
  have hmul : 0 ≤ intensityOf c2 c1 c0 * (K - 1) := Int.mul_nonneg ht.1 (by omega)
  have hmul2 : intensityOf c2 c1 c0 * (K - 1) ≤ 255 * 9 :=
    Int.mul_le_mul ht.2.1 (by omega) (by omega) (by decide)
  rw [Int.tdiv_eq_ediv hmul (by decide), ← hqe]
  unfold INT_MAX
  refine ⟨?_, ?_, ?_, ?_, ?_, ?_, rfl, rfl⟩ <;> omega

/-- Witness of `C8_no_overflow`: the largest case, a white pixel at `K = 10`. -/
theorem C8_no_overflow_witness :
    (0 ≤ (255 : Int) + 255 ∧ (255 : Int) + 255 ≤ INT_MAX) ∧
      (0 ≤ (255 : Int) + 255 + 255 ∧ (255 : Int) + 255 + 255 ≤ INT_MAX) ∧
      (0 ≤ ((255 : Int) + 255 + 255).tdiv 3 ∧ ((255 : Int) + 255 + 255).tdiv 3 ≤ 255) ∧
      (0 ≤ (10 : Int) - 1 ∧ (10 : Int) - 1 ≤ INT_MAX) ∧
      (0 ≤ ((255 : Int) + 255 + 255).tdiv 3 * (10 - 1) ∧
        ((255 : Int) + 255 + 255).tdiv 3 * (10 - 1) ≤ INT_MAX) ∧
      (0 ≤ (((255 : Int) + 255 + 255).tdiv 3 * (10 - 1)).tdiv 255 ∧
        (((255 : Int) + 255 + 255).tdiv 3 * (10 - 1)).tdiv 255 ≤ INT_MAX) ∧
      intensityOf 255 255 255 = ((255 : Int) + 255 + 255).tdiv 3 ∧
      quantIndexOf (intensityOf 255 255 255) 10
        = (((255 : Int) + 255 + 255).tdiv 3 * (10 - 1)).tdiv 255 :=
  C8_no_overflow 255 255 255 10 (by decide) (by decide) (by decide) (by decide)

/-- C10: for `K` in `[4,10]` and channel values in `[0,255]` the kernel selects
index `K - 1` exactly when the intensity is 255, which happens exactly when all
three channels are 255; every other pixel gets an index below `K - 1`. -/
theorem C10_top_bucket (c2 c1 c0 K : Int) (h2 : 0 ≤ c2 ∧ c2 ≤ 255)
    (h1 : 0 ≤ c1 ∧ c1 ≤ 255) (h0 : 0 ≤ c0 ∧ c0 ≤ 255) (hK : 4 ≤ K ∧ K ≤ 10) :
    (quantIndexOf (intensityOf c2 c1 c0) K = K - 1 ↔ intensityOf c2 c1 c0 = 255) ∧
      (intensityOf c2 c1 c0 = 255 ↔ c2 = 255 ∧ c1 = 255 ∧ c0 = 255) ∧
      (¬ (c2 = 255 ∧ c1 = 255 ∧ c0 = 255) →
        0 ≤ quantIndexOf (intensityOf c2 c1 c0) K ∧
          quantIndexOf (intensityOf c2 c1 c0) K < K - 1) := by
  have ht := intensityOf_range c2 c1 c0 h2 h1 h0
  have hq := quantIndexOf_range _ K ⟨ht.1, ht.2.1⟩ hK
  refine ⟨hq.2.2, ht.2.2, fun hne => ⟨hq.1, ?_⟩⟩
  have h255 : ¬ intensityOf c2 c1 c0 = 255 := fun h => hne (ht.2.2.mp h)
  have hneq : ¬ quantIndexOf (intensityOf c2 c1 c0) K = K - 1 := fun h => h255 (hq.2.2.mp h)
  have hle := hq.2.1
  omega

/-- Witness of `C10_top_bucket`: the pixel (255, 255, 254) at `K = 10`. -/
theorem C10_top_bucket_witness :
    (quantIndexOf (intensityOf 255 255 254) 10 = 10 - 1 ↔ intensityOf 255 255 254 = 255) ∧
      (intensityOf 255 255 254 = 255 ↔ (255 : Int) = 255 ∧ (255 : Int) = 255 ∧ (254 : Int) = 255) ∧
      (¬ ((255 : Int) = 255 ∧ (255 : Int) = 255 ∧ (254 : Int) = 255) →
        0 ≤ quantIndexOf (intensityOf 255 255 254) 10 ∧
          quantIndexOf (intensityOf 255 255 254) 10 < 10 - 1) :=
  C10_top_bucket 255 255 254 10 (by decide) (by decide) (by decide) (by decide)

/-- C5: for every `K` in `[4,10]` a pixel (0,0,0) has intensity 0 and index 0 and
is written as palette entry 0 = (0,0,0); a pixel (255,255,255) has intensity 255
and index exactly `K - 1` and is written as palette entry `K - 1`; at `K = 10`
that entry is (0,127,127). The pixel is the only one of a 1 × 1 image, over any
previous contents of the output buffer. -/
theorem C5_endpoints (K : Int) (hK : 4 ≤ K ∧ K ≤ 10) (o0 o1 o2 : uchar) :
    intensityOf 0 0 0 = 0 ∧ quantIndexOf 0 K = 0 ∧
      h_quantizedColors[0]? = some ⟨0, 0, 0⟩ ∧
      clEnqueueNDRangeKernel [0, 0, 0] [o0, o1, o2] 1 1 (d_quantizedColors K) K 1 1
        = some [0, 0, 0] ∧
      intensityOf 255 255 255 = 255 ∧ quantIndexOf 255 K = K - 1 ∧
      (∃ c, h_quantizedColors[(K - 1).toNat]? = some c ∧
        clEnqueueNDRangeKernel [255, 255, 255] [o0, o1, o2] 1 1 (d_quantizedColors K) K 1 1
          = some [c.x, c.y, c.z]) ∧
      (K = 10 →
        clEnqueueNDRangeKernel [255, 255, 255] [o0, o1, o2] 1 1 (d_quantizedColors K) K 1 1
          = some [0, 127, 127]) := by
  have hblack := clEnqueueNDRangeKernel_one_pixel 0 0 0 o0 o1 o2 K hK
  have hwhite := clEnqueueNDRangeKernel_one_pixel 255 255 255 o0 o1 o2 K hK
  rw [hblack, hwhite]
  obtain ⟨h4, h10⟩ := hK
  interval_cases K <;>
    exact ⟨by decide, by decide, by decide, by decide, by decide, by decide,
      ⟨_, rfl, by decide⟩, by decide⟩

/-- Witness of `C5_endpoints`: `K = 10` over an output buffer of zeros. -/
theorem C5_endpoints_witness :
    intensityOf 0 0 0 = 0 ∧ quantIndexOf 0 10 = 0 ∧
      h_quantizedColors[0]? = some ⟨0, 0, 0⟩ ∧
      clEnqueueNDRangeKernel [0, 0, 0] [0, 0, 0] 1 1 (d_quantizedColors 10) 10 1 1
        = some [0, 0, 0] ∧
      intensityOf 255 255 255 = 255 ∧ quantIndexOf 255 10 = 10 - 1 ∧
      (∃ c, h_quantizedColors[((10 : Int) - 1).toNat]? = some c ∧
        clEnqueueNDRangeKernel [255, 255, 255] [0, 0, 0] 1 1 (d_quantizedColors 10) 10 1 1
          = some [c.x, c.y, c.z]) ∧
      ((10 : Int) = 10 →
        clEnqueueNDRangeKernel [255, 255, 255] [0, 0, 0] 1 1 (d_quantizedColors 10) 10 1 1
          = some [0, 127, 127]) :=
  C5_endpoints 10 (by decide) 0 0 0

/-- C3 (amended): for every image whose byte count fits a 32-bit `int` and every
`K` in `[4,10]`, quantizing and quantizing the result again both produce a
buffer, and the second result equals the first if and only if every pixel of the
image has index 0, or index 1 with `K ≥ 8`, or index 2 with `7 ≤ K ≤ 9`: these
are the only palette entries whose own average intensity maps back to their
index. -/
theorem C3_requantize (input output output' : List uchar) (rows cols : Nat) (K : Int)
    (hsize : 3 * rows * cols ≤ 2147483647) (hin : input.length = 3 * rows * cols)
    (hout : output.length = 3 * rows * cols) (hout' : output'.length = 3 * rows * cols)
    (hK : 4 ≤ K ∧ K ≤ 10) :
    ∃ out1 out2,
      clEnqueueNDRangeKernel input output rows cols (d_quantizedColors K) K cols rows
        = some out1 ∧
      clEnqueueNDRangeKernel out1 output' rows cols (d_quantizedColors K) K cols rows
        = some out2 ∧
      (out2 = out1 ↔
        ∀ idx b0 b1 b2, input[3 * idx]? = some b0 → input[3 * idx + 1]? = some b1 →
          input[3 * idx + 2]? = some b2 →
          quantIndexOf (intensityOf b2.val b1.val b0.val) K = 0 ∨
            (quantIndexOf (intensityOf b2.val b1.val b0.val) K = 1 ∧ 8 ≤ K) ∨
            (quantIndexOf (intensityOf b2.val b1.val b0.val) K = 2 ∧ 7 ≤ K ∧ K ≤ 9)) := by
  refine ⟨_, _, clEnqueueNDRangeKernel_eq input output rows cols K hsize hin hout hK,
    clEnqueueNDRangeKernel_eq _ output' rows cols K hsize (length_quantizedBuffer _ _ _)
      hout' hK, ?_⟩
  rw [Nat.mul_assoc] at hin ⊢
  rw [quantizedBuffer_eq_iff]
  constructor
  · intro h idx b0 b1 b2 h0 h1 h2
    have hlt : 3 * idx + 2 < input.length := (List.getElem?_eq_some_iff.mp h2).1
    have hidx : idx < rows * cols := by omega
    exact (pixelColor_fixed_iff input K _ idx hidx hK b0 b1 b2 h0 h1 h2).mp (h idx hidx)
  · intro h idx hidx
    exact (pixelColor_fixed_iff input K _ idx hidx hK _ _ _
      (getElem?_eq_some_getD input _ 0 (by omega)) (getElem?_eq_some_getD input _ 0 (by omega))
      (getElem?_eq_some_getD input _ 0 (by omega))).mpr
      (h idx _ _ _ (getElem?_eq_some_getD input _ 0 (by omega))
        (getElem?_eq_some_getD input _ 0 (by omega))
        (getElem?_eq_some_getD input _ 0 (by omega)))

/-- Witness of `C3_requantize`: a 1 × 1 image at `K = 4`. -/
theorem C3_requantize_witness :
    ∃ out1 out2,
      clEnqueueNDRangeKernel [100, 100, 100] [0, 0, 0] ((1 : Nat) : Int) ((1 : Nat) : Int)
        (d_quantizedColors 4) 4 1 1 = some out1 ∧
      clEnqueueNDRangeKernel out1 [7, 7, 7] ((1 : Nat) : Int) ((1 : Nat) : Int)
        (d_quantizedColors 4) 4 1 1 = some out2 ∧
      (out2 = out1 ↔
        ∀ idx b0 b1 b2, ([100, 100, 100] : List uchar)[3 * idx]? = some b0 →
          ([100, 100, 100] : List uchar)[3 * idx + 1]? = some b1 →
          ([100, 100, 100] : List uchar)[3 * idx + 2]? = some b2 →
          quantIndexOf (intensityOf b2.val b1.val b0.val) 4 = 0 ∨
            (quantIndexOf (intensityOf b2.val b1.val b0.val) 4 = 1 ∧ (8 : Int) ≤ 4) ∨
            (quantIndexOf (intensityOf b2.val b1.val b0.val) 4 = 2 ∧
              (7 : Int) ≤ 4 ∧ (4 : Int) ≤ 9)) :=
  C3_requantize [100, 100, 100] [0, 0, 0] [7, 7, 7] 1 1 4 (by decide) rfl rfl rfl (by decide)

/-- C3 fails as stated: at `K = 4` the pixel (100,100,100) is written as palette
entry 1 = (127,0,0), whose intensity 42 maps to index 0, so the second pass
writes (0,0,0); at `K = 10` the pixel (85,85,85) is written as entry 3 =
(0,127,0) and the second pass writes entry 1 = (127,0,0). -/
theorem C3_counterexample :
    clEnqueueNDRangeKernel [100, 100, 100] [0, 0, 0] 1 1 (d_quantizedColors 4) 4 1 1
        = some [127, 0, 0] ∧
      clEnqueueNDRangeKernel [127, 0, 0] [0, 0, 0] 1 1 (d_quantizedColors 4) 4 1 1
        = some [0, 0, 0] ∧
      clEnqueueNDRangeKernel [85, 85, 85] [0, 0, 0] 1 1 (d_quantizedColors 10) 10 1 1
        = some [0, 127, 0] ∧
      clEnqueueNDRangeKernel [0, 127, 0] [0, 0, 0] 1 1 (d_quantizedColors 10) 10 1 1
        = some [127, 0, 0] := by
  decide

/-! ## Claims about `main` -/

/-- C6: with `K` as a parameter of `main`, every `K < 4` or `K > 10` (in
particular 3 and 11) makes `main` return 1 with an empty trace: no image is
loaded and `quantizeAndSave` is never called. For `K` in `[4,10]` the check does
not reject: `main` goes on to load the three images. -/
theorem C6_bad_level_rejected (K : Int) (numRuns : Nat) (w : World) :
    ((K < 4 ∨ K > 10) → mainWith K numRuns w = (1, [])) ∧
      mainWith 3 numRuns w = (1, []) ∧ mainWith 11 numRuns w = (1, []) ∧
      ((4 ≤ K ∧ K ≤ 10) → ∃ rest, (mainWith K numRuns w).2 = inputReads ++ rest) := by
  refine ⟨mainWith_rejected K numRuns w, mainWith_rejected 3 numRuns w (by decide),
    mainWith_rejected 11 numRuns w (by decide), fun hK => ?_⟩
  cases he : (w.empty "data/f1024x768.jpg" || w.empty "data/f1280x960.jpg"
      || w.empty "data/f2560x1440.jpg") with
  | true =>
    rw [mainWith_empty K numRuns w hK he]
    exact ⟨[], (List.append_nil _).symm⟩
  | false =>
    rw [mainWith_loaded K numRuns w hK he]
    obtain ⟨-, -, -, rest, hrest⟩ := forLoop_spec w K (List.range numRuns) inputReads
    refine ⟨rest, ?_⟩
    by_cases hok : (forLoop w K (List.range numRuns) inputReads).2 = true
    · rw [if_pos hok]
      exact hrest
    · rw [if_neg hok]
      exact hrest

/-- Witness of `C6_bad_level_rejected`: `K = 3` and `K = 10` with ten runs. -/
theorem C6_bad_level_rejected_witness :
    ((((3 : Int) < 4 ∨ (3 : Int) > 10) → mainWith 3 10 World.allGood = (1, [])) ∧
        mainWith 3 10 World.allGood = (1, []) ∧ mainWith 11 10 World.allGood = (1, []) ∧
        (((4 : Int) ≤ 3 ∧ (3 : Int) ≤ 10) →
          ∃ rest, (mainWith 3 10 World.allGood).2 = inputReads ++ rest)) ∧
      ((((10 : Int) < 4 ∨ (10 : Int) > 10) → mainWith 10 10 World.allGood = (1, [])) ∧
        mainWith 3 10 World.allGood = (1, []) ∧ mainWith 11 10 World.allGood = (1, []) ∧
        (((4 : Int) ≤ 10 ∧ (10 : Int) ≤ 10) →
          ∃ rest, (mainWith 10 10 World.allGood).2 = inputReads ++ rest)) :=
  ⟨C6_bad_level_rejected 3 10 World.allGood, C6_bad_level_rejected 10 10 World.allGood⟩

/-- C7: `main` returns 0 if and only if `K` is in `[4,10]`, the three images
load non-empty and none of the `3 * numRuns` calls of `quantizeAndSave` throws;
otherwise it returns 1. When an image is empty no call is made; a call that
throws is the last call made; a run that returns 0 made `3 * numRuns` calls. -/
theorem C7_exit_status (K : Int) (numRuns : Nat) (w : World) :
    ((mainWith K numRuns w).1 = 0 ↔
        (4 ≤ K ∧ K ≤ 10) ∧
        (w.empty "data/f1024x768.jpg" = false ∧ w.empty "data/f1280x960.jpg" = false ∧
          w.empty "data/f2560x1440.jpg" = false) ∧
        ∀ n, n < 3 * numRuns → w.throws n = false) ∧
      ((mainWith K numRuns w).1 = 0 ∨ (mainWith K numRuns w).1 = 1) ∧
      ((w.empty "data/f1024x768.jpg" = true ∨ w.empty "data/f1280x960.jpg" = true ∨
          w.empty "data/f2560x1440.jpg" = true) → callCount (mainWith K numRuns w).2 = 0) ∧
      (∀ n, w.throws n = true → callCount (mainWith K numRuns w).2 ≤ n + 1) ∧
      ((mainWith K numRuns w).1 = 0 → callCount (mainWith K numRuns w).2 = 3 * numRuns) := by
  by_cases hbad : K < 4 ∨ K > 10
  · rw [mainWith_rejected K numRuns w hbad]
    refine ⟨⟨fun h => absurd h (by decide), fun h => absurd h.1 (by omega)⟩, Or.inr rfl,
      fun _ => rfl, fun n _ => Nat.zero_le _, fun h => absurd h (by decide)⟩
  · have hK : 4 ≤ K ∧ K ≤ 10 := by omega
    cases he : (w.empty "data/f1024x768.jpg" || w.empty "data/f1280x960.jpg"
        || w.empty "data/f2560x1440.jpg") with
    | true =>
      rw [mainWith_empty K numRuns w hK he]
      refine ⟨⟨fun h => absurd h (by decide), fun h => ?_⟩, Or.inr rfl, fun _ => rfl,
        fun n _ => Nat.zero_le _, fun h => absurd h (by decide)⟩
      obtain ⟨-, ⟨e1, e2, e3⟩, -⟩ := h
      rw [e1, e2, e3] at he
      exact absurd he (by decide)
    | false =>
      have hload : w.empty "data/f1024x768.jpg" = false ∧
          w.empty "data/f1280x960.jpg" = false ∧ w.empty "data/f2560x1440.jpg" = false := by
        simpa [Bool.or_eq_false_iff, and_assoc] using he
      rw [mainWith_loaded K numRuns w hK he]
      obtain ⟨i1, i2, i3, -⟩ := forLoop_spec w K (List.range numRuns) inputReads
      rw [callCount_inputReads, List.length_range] at i1
      rw [callCount_inputReads] at i3
      by_cases hok : (forLoop w K (List.range numRuns) inputReads).2 = true
      · rw [if_pos hok]
        have hall := i1.mp hok
        refine ⟨⟨fun _ => ⟨hK, hload, fun n hn => hall n (Nat.zero_le _) (by omega)⟩,
          fun _ => rfl⟩, Or.inl rfl, fun h => ?_, fun n hn => i3 n (Nat.zero_le _) hn,
          fun _ => ?_⟩
        · rcases h with h | h | h
          · rw [hload.1] at h; exact absurd h (by decide)
          · rw [hload.2.1] at h; exact absurd h (by decide)
          · rw [hload.2.2] at h; exact absurd h (by decide)
        · show callCount (forLoop w K (List.range numRuns) inputReads).1 = 3 * numRuns
          rw [i2 hok, callCount_append, callCount_inputReads, Nat.zero_add,
            callCount_flatMap_runEvents]
      · rw [if_neg hok]
        have hne : ∀ tr : List Event, ¬ ((1 : Int), tr).1 = 0 := fun _ => Int.one_ne_zero
        refine ⟨⟨fun h => absurd h (hne _), fun h => ?_⟩, Or.inr rfl, fun h => ?_,
          fun n hn => i3 n (Nat.zero_le _) hn, fun h => absurd h (hne _)⟩
        · exact absurd (i1.mpr (fun n _ hn => h.2.2 n (by omega))) hok
        · rcases h with h | h | h
          · rw [hload.1] at h; exact absurd h (by decide)
          · rw [hload.2.1] at h; exact absurd h (by decide)
          · rw [hload.2.2] at h; exact absurd h (by decide)

/-- C9 (amended): on a run of `main` that returns 0 the trace is the three
image loads followed, for every `run` below `numRuns`, by the three calls of
`quantizeAndSave`; the path passed for an image depends on the image and on `K`
only, not on `run`. The paths of the three images are pairwise distinct, each
is under `result/` and contains the name of its source image and the decimal
value of `K`. -/
theorem C9_output_paths (K : Int) (numRuns : Nat) (w : World)
    (hok : (mainWith K numRuns w).1 = 0) :
    (mainWith K numRuns w).2 = inputReads ++ (List.range numRuns).flatMap (runEvents K) ∧
      callPaths (mainWith K numRuns w).2
        = (List.range numRuns).flatMap
            (fun _ => [outputFilename 1 K, outputFilename 2 K, outputFilename 3 K]) ∧
      (outputFilename 1 K ≠ outputFilename 2 K ∧ outputFilename 1 K ≠ outputFilename 3 K ∧
        outputFilename 2 K ≠ outputFilename 3 K) ∧
      (∀ image, ∃ rest, outputFilename image K = "result/" ++ rest) ∧
      (∃ pre post, outputFilename 1 K = pre ++ "f1024x768" ++ post) ∧
      (∃ pre post, outputFilename 2 K = pre ++ "f1280x960" ++ post) ∧
      (∃ pre post, outputFilename 3 K = pre ++ "f2560x1440" ++ post) ∧
      (∀ image, ∃ pre post, outputFilename image K = pre ++ toString K ++ post) := by
  have htr := mainWith_trace_of_ok K numRuns w hok
  refine ⟨htr, ?_, outputFilename_ne K, fun image => ?_,
    ⟨"result/quantized_", "_k" ++ toString K ++ ".jpg", ?_⟩,
    ⟨"result/quantized_", "_k" ++ toString K ++ ".jpg", ?_⟩,
    ⟨"result/quantized_", "_k" ++ toString K ++ ".jpg", ?_⟩, fun image => ?_⟩
  · rw [htr, callPaths_append, callPaths_flatMap_runEvents]
    rfl
  · rcases outputFilename_cases image K with h | h | h
    · exact ⟨"quantized_f1024x768_k" ++ toString K ++ ".jpg", by
        rw [h, outputFilename_one, ← String.append_assoc, ← String.append_assoc]; rfl⟩
    · exact ⟨"quantized_f1280x960_k" ++ toString K ++ ".jpg", by
        rw [h, outputFilename_two, ← String.append_assoc, ← String.append_assoc]; rfl⟩
    · exact ⟨"quantized_f2560x1440_k" ++ toString K ++ ".jpg", by
        rw [h, outputFilename_three, ← String.append_assoc, ← String.append_assoc]; rfl⟩
  · rw [outputFilename_one, ← String.append_assoc, ← String.append_assoc]; rfl
  · rw [outputFilename_two, ← String.append_assoc, ← String.append_assoc]; rfl
  · rw [outputFilename_three, ← String.append_assoc, ← String.append_assoc]; rfl
  · rcases outputFilename_cases image K with h | h | h
    · exact ⟨"result/quantized_f1024x768_k", ".jpg", by rw [h, outputFilename_one]⟩
    · exact ⟨"result/quantized_f1280x960_k", ".jpg", by rw [h, outputFilename_two]⟩
    · exact ⟨"result/quantized_f2560x1440_k", ".jpg", by rw [h, outputFilename_three]⟩

/-- Witness of `C9_output_paths`: `main` itself (`K = 10`, ten runs) when every
image loads and no call throws. -/
theorem C9_output_paths_witness :
    (mainWith 10 10 World.allGood).1 = 0 ∧
      ((mainWith 10 10 World.allGood).2
          = inputReads ++ (List.range 10).flatMap (runEvents 10) ∧
        callPaths (mainWith 10 10 World.allGood).2
          = (List.range 10).flatMap
              (fun _ => [outputFilename 1 10, outputFilename 2 10, outputFilename 3 10]) ∧
        (outputFilename 1 10 ≠ outputFilename 2 10 ∧ outputFilename 1 10 ≠ outputFilename 3 10 ∧
          outputFilename 2 10 ≠ outputFilename 3 10) ∧
        (∀ image, ∃ rest, outputFilename image 10 = "result/" ++ rest) ∧
        (∃ pre post, outputFilename 1 10 = pre ++ "f1024x768" ++ post) ∧
        (∃ pre post, outputFilename 2 10 = pre ++ "f1280x960" ++ post) ∧
        (∃ pre post, outputFilename 3 10 = pre ++ "f2560x1440" ++ post) ∧
        (∀ image, ∃ pre post,
          outputFilename image 10 = pre ++ toString (10 : Int) ++ post)) :=
  ⟨by decide, C9_output_paths 10 10 World.allGood (by decide)⟩

/-- C9 fails as stated: the run of `main` in which every image loads and no
call throws returns 0 and makes 30 calls, but the calls for `image1` in runs 0
and 1 receive the same path, and only three distinct paths occur. -/
theorem C9_counterexample :
    (main World.allGood).1 = 0 ∧
      Event.quantizeAndSave 0 1 "result/quantized_f1024x768_k10.jpg" 10
        ∈ (main World.allGood).2 ∧
      Event.quantizeAndSave 1 1 "result/quantized_f1024x768_k10.jpg" 10
        ∈ (main World.allGood).2 ∧
      (callPaths (main World.allGood).2).length = 30 ∧
      (callPaths (main World.allGood).2).dedup
        = ["result/quantized_f1024x768_k10.jpg", "result/quantized_f1280x960_k10.jpg",
            "result/quantized_f2560x1440_k10.jpg"] := by
  decide

end TPRV
